import Mathlib

/-!
Verification of the OCR tiling/extraction/aggregation pipeline
(`src/ocr.py`, `src/TrOCR/ocr.py`).

Texts are modelled as `List Char`; the two fixed regular expressions in
`PATTERNS` are embedded as direct matcher functions with Python `re`
semantics (leftmost match, greedy quantifiers, non-overlapping `findall`
scan).  The external recognition engine is modelled as an oracle
returning the per-tile postprocessed candidate.
-/

namespace WjwDigital

/-- Python `\d` on the ASCII inputs produced by the digit/dash whitelist. -/
def isDigitC (c : Char) : Bool := '0' ≤ c && c ≤ '9'

/-- Python `\w` on ASCII inputs: letters, digits and underscore. -/
def isWordC (c : Char) : Bool := c.isAlpha || isDigitC c || c = '_'

/-- Match exactly `n` characters satisfying `p`; returns (matched, rest). -/
def takeCount (p : Char → Bool) : Nat → List Char → Option (List Char × List Char)
  | 0, l => some ([], l)
  | _ + 1, [] => none
  | n + 1, c :: l =>
    if p c then (takeCount p n l).map (fun m => (c :: m.1, m.2)) else none

/-- Match one literal character. -/
def takeLit (c : Char) : List Char → Option (List Char × List Char)
  | [] => none
  | d :: l => if d = c then some ([c], l) else none

/-- Matcher for the pattern `\d{2}-\w{10}` anchored at the head of the list. -/
def matchP1 (l : List Char) : Option (List Char × List Char) := do
  let (a, l) ← takeCount isDigitC 2 l
  let (s, l) ← takeLit '-' l
  let (b, l) ← takeCount isWordC 10 l
  return (a ++ s ++ b, l)

/-- Matcher for `\d{2}-\d+-\d{2}-\d` anchored at the head.  The greedy
`\d+` always consumes the maximal digit run: shrinking it would expose a
digit where the following literal `-` is required, so no backtracking
can ever succeed with a shorter run. -/
def matchP2 (l : List Char) : Option (List Char × List Char) := do
  let (a, l) ← takeCount isDigitC 2 l
  let (s1, l) ← takeLit '-' l
  let run := l.takeWhile isDigitC
  let l := l.dropWhile isDigitC
  if run.isEmpty then none
  else do
    let (s2, l) ← takeLit '-' l
    let (b, l) ← takeCount isDigitC 2 l
    let (s3, l) ← takeLit '-' l
    let (c, l) ← takeCount isDigitC 1 l
    return (a ++ s1 ++ run ++ s2 ++ b ++ s3 ++ c, l)

/-- Matcher for `\d{2}-\d{2}` (the folder-name hint pattern). -/
def matchDD (l : List Char) : Option (List Char × List Char) := do
  let (a, l) ← takeCount isDigitC 2 l
  let (s, l) ← takeLit '-' l
  let (b, l) ← takeCount isDigitC 2 l
  return (a ++ s ++ b, l)

/-- `re.findall` scan: try the matcher at each position left to right,
continuing after the end of each (non-overlapping) match.  The fuel is
the input length; every successful match of the patterns above consumes
at least one character, so the fuel never runs out. -/
def findallAux (m : List Char → Option (List Char × List Char)) :
    Nat → List Char → List (List Char)
  | 0, _ => []
  | _, [] => []
  | fuel + 1, c :: rest =>
    match m (c :: rest) with
    | some (mt, r) => mt :: findallAux m fuel r
    | none => findallAux m fuel rest

def findall (m : List Char → Option (List Char × List Char)) (l : List Char) :
    List (List Char) :=
  findallAux m l.length l

/-- The match-collection loop shared by both `_postprocess` variants:
`for pattern in patterns: matched_text.extend(re.findall(pattern, text))`
with `PATTERNS = [r"\d{2}-\w{10}", r"\d{2}-\d+-\d{2}-\d"]`. -/
def patternMatchText (text : List Char) : List (List Char) :=
  findall matchP1 text ++ findall matchP2 text

/-- Python substring test `needle in hay`: `startsWithL hay needle` is
`hay.startswith(needle)`. -/
def startsWithL : List Char → List Char → Bool
  | _, [] => true
  | [], _ :: _ => false
  | h :: t, n :: m => h = n && startsWithL t m

def containsSub : List Char → List Char → Bool
  | [], needle => startsWithL [] needle
  | h :: t, needle => startsWithL (h :: t) needle || containsSub t needle

/-- `re.search(r"\d{2}-\d{2}", folder_name)` — the leftmost match, if any
(`_check_folder_name`, src/ocr.py lines 223-225). -/
def searchFolderHint (folder : List Char) : Option (List Char) :=
  (findall matchDD folder).head?

/-- `_check_folder_name` (src/ocr.py lines 209-231): keeps the extracted
text only when the folder name contains a `\d{2}-\d{2}` group that is a
substring of the extracted text; in every other case returns `None`. -/
def checkFolderName (extracted : Option (List Char)) (folder : List Char) :
    Option (List Char) :=
  match extracted with
  | none => none
  | some t =>
    if t.isEmpty then none
    else
      match searchFolderHint folder with
      | some p => if containsSub t p then some t else none
      | none => none

/-- `_postprocess` (src/ocr.py lines 234-249): collect matches of the
patterns on the raw text, take the first, then folder-name validation.
No character substitution is applied before matching. -/
def ocrPostprocess (text folder : List Char) : Option (List Char) :=
  checkFolderName (patternMatchText text).head? folder

/-- Strip the separators: `filtered_text.replace("-", "")`. -/
def stripDash (l : List Char) : List Char := l.filter (fun c => decide (c ≠ '-'))

/-- The 2/6/2/1 regrouping of `_postprocess` (src/TrOCR/ocr.py lines
141-150): strip `-`, then `t[:2] + "-" + t[2:8] + "-" + t[8:10] + "-" + t[10:]`. -/
def formatGroup (l : List Char) : List Char :=
  let t := stripDash l
  t.take 2 ++ '-' :: ((t.drop 2).take 6 ++ '-' :: ((t.drop 8).take 2 ++ '-' :: t.drop 10))

/-- `_postprocess` (src/TrOCR/ocr.py lines 130-155): walk the text
results; for each, take the first pattern match; if it has exactly 13
characters (raw, separators included) return its 2/6/2/1 regrouping,
otherwise continue with the next text; `None` when nothing qualified. -/
def trocrPostprocess : List (List Char) → Option (List Char)
  | [] => none
  | text :: rest =>
    match (patternMatchText text).head? with
    | some ft => if ft.length = 13 then some (formatGroup ft) else trocrPostprocess rest
    | none => trocrPostprocess rest

/-- The `REPLACEMENTS` table of src/TrOCR/ocr.py lines 25-42, applied as
a character substitution.  The table is defined in the source but never
applied by any function; it is embedded here only to state what the
pipeline would do with it.  Note every bracket-like glyph maps to `|`,
not to the `-` used by the patterns. -/
def replaceConfusable (c : Char) : Char :=
  if c = 'O' || c = 'o' then '0'
  else if c = 'l' || c = 'L' || c = 'I' || c = '{' || c = '}' || c = '!' ||
          c = '[' || c = ']' || c = '(' || c = ')' || c = '<' || c = '>' ||
          c = '/' || c = '\\' then '|'
  else c

def applyReplacements (l : List Char) : List Char := l.map replaceConfusable

/-! ## Aggregation: `_find_most_common_result` (src/ocr.py lines 181-207) -/

/-- Python truthiness of a `str | None` tile result: `None` and the empty
string are falsy (`[res for res in results if res]`). -/
def pyTruthy : Option String → Bool
  | none => false
  | some s => decide (s ≠ "")

/-- The candidates surviving the falsy filter. -/
def surviving (results : List (Option String)) : List String :=
  (results.filter pyTruthy).filterMap id

/-- Keys of `collections.Counter(l)` in insertion order: the first
occurrence of each distinct string, in list order.  Fuelled so that the
kernel can evaluate it; the fuel is the list length, and each step
removes at least the head, so it never runs out. -/
def firstKeysAux : Nat → List String → List String
  | 0, _ => []
  | _, [] => []
  | fuel + 1, s :: rest => s :: firstKeysAux fuel (rest.filter (fun t => decide (t ≠ s)))

def firstKeys (l : List String) : List String := firstKeysAux l.length l

/-- Left fold selecting the first element of maximal `f`-value (strict
improvement to replace): the behaviour of `Counter.most_common(1)[0]`,
whose stable descending sort keeps the earliest-inserted key first among
equal counts. -/
def firstArgmaxAux (f : String → Nat) : String → List String → String
  | best, [] => best
  | best, s :: rest =>
    if f best < f s then firstArgmaxAux f s rest else firstArgmaxAux f best rest

/-- `Counter(l).most_common(1)` head, as key: the earliest-inserted key
with maximal multiplicity; `None` when `l` is empty. -/
def mostCommon1 (l : List String) : Option String :=
  match firstKeys l with
  | [] => none
  | k :: ks => some (firstArgmaxAux (fun s => l.count s) k ks)

/-- `_find_most_common_result`: `None` on the empty list; filter falsy
entries; a single survivor is returned directly; otherwise the most
common survivor via `Counter`. -/
def findMostCommonResult (results : List (Option String)) : Option String :=
  if results.isEmpty then none
  else
    let fs := surviving results
    if fs.length = 1 then fs.head?
    else mostCommon1 fs

/-! ## Tiling plan and document pipeline (`ocr_on_image`, src/ocr.py lines 251-343) -/

/-- Errors the Python runtime or the spec can name.  `valueError` is what
`range(0, n, 0)` raises; `invalidParameters` is the distinct error the
spec demands of the tiling planner (produced nowhere in the code). -/
inductive PyErr where
  | valueError
  | invalidParameters
deriving DecidableEq, Repr

/-- A tile `image.crop((x, y, right, bottom))`. -/
structure Tile where
  x : Nat
  y : Nat
  right : Nat
  bottom : Nat
deriving DecidableEq, Repr

/-- `int(dim * percent / 100)`: truncating float division of nonnegative
values is floor division. -/
def sectionLen (dim pct : Nat) : Nat := dim * pct / 100

/-- `shift_width = section_width - int(image_width * overlap / 100)` as an
integer (it can be zero or negative for degenerate parameters). -/
def shiftLen (dim ssp op : Nat) : Int :=
  (sectionLen dim ssp : Int) - (sectionLen dim op : Int)

/-- Python `range(0, stop, step)` for `step > 0`. -/
def pyRangePos (stop step : Nat) : List Nat :=
  (List.range ((stop + step - 1) / step)).map (fun i => i * step)

/-- The tile grid of `ocr_on_image` (lines 294-308): the outer `y` range
is constructed first, so a zero height-shift raises `ValueError`; a
negative one yields an empty outer loop in which the inner range is
never constructed.  With both shifts positive the grid is the row-major
product, each tile clamped to the image bounds. -/
def planTiles (W H ssp op : Nat) : Except PyErr (List Tile) :=
  let secW := sectionLen W ssp
  let secH := sectionLen H ssp
  let shW := shiftLen W ssp op
  let shH := shiftLen H ssp op
  if shH = 0 then .error .valueError
  else if shH < 0 then .ok []
  else
    let ys := pyRangePos H shH.toNat
    if ys.isEmpty then .ok []
    else if shW = 0 then .error .valueError
    else if shW < 0 then .ok []
    else .ok (ys.flatMap (fun y =>
      (pyRangePos W shW.toNat).map (fun x =>
        ⟨x, y, min (x + secW) W, min (y + secH) H⟩)))

/-- `_is_file_in_desired_format` (lines 56-66): `re.search` of any
pattern against the base file name. -/
def isFileInDesiredFormat (fileName : List Char) : Bool :=
  !(findall matchP1 fileName).isEmpty || !(findall matchP2 fileName).isEmpty

/-- The stem of `os.path.splitext`: everything before the last dot. -/
def splitextStem (name : List Char) : List Char :=
  if '.' ∈ name then ((name.reverse.dropWhile (fun c => decide (c ≠ '.'))).drop 1).reverse
  else name

def korrektMarker : List Char := ('_' :: 'O' :: 'C' :: 'R' :: '-' :: "korrekt".data)

/-- The idempotence guard of `ocr_on_image` (lines 258-279): a file whose
name matches a pattern returns early (after at most a rename) unless its
stem contains `_OCR-korrekt`, in which case control falls through to the
full sliding-window pass. -/
def guardReturnsEarly (fileName : List Char) : Bool :=
  isFileInDesiredFormat fileName && !(containsSub (splitextStem fileName) korrektMarker)

/-- One full pass: plan the grid and aggregate the per-tile results.  The
external engine plus `_ocr_on_section` postprocessing is the oracle
`recognize enhance x y`; the code always calls `_preprocess_image` with
its default `enhance=False`, hence the literal `false` below.  A raised
`ValueError` is swallowed by the enclosing `except` into `None`. -/
def onePassResult (recognize : Bool → Nat → Nat → Option String)
    (W H ssp op : Nat) : Option String :=
  match planTiles W H ssp op with
  | .error _ => none
  | .ok tiles => findMostCommonResult (tiles.map (fun t => recognize false t.x t.y))

/-- `ocr_on_image` (lines 251-343).  When the first pass aggregates to
`None` and `run_again_with_enhanced_image` is set, the code recurses on
the same path with the flag cleared; the recursive call repeats the
identical computation (same image, same parameters, `enhance` never
set), which the deterministic oracle makes literal re-evaluation. -/
def ocrOnImage (recognize : Bool → Nat → Nat → Option String)
    (fileName : List Char) (W H ssp op : Nat) (runAgain : Bool) : Option String :=
  if guardReturnsEarly fileName then none
  else
    let first := onePassResult recognize W H ssp op
    if first.isNone && runAgain then onePassResult recognize W H ssp op
    else first

/-- Number of full sliding-window passes `ocr_on_image` performs. -/
def ocrPassCount (recognize : Bool → Nat → Nat → Option String)
    (fileName : List Char) (W H ssp op : Nat) (runAgain : Bool) : Nat :=
  if guardReturnsEarly fileName then 0
  else if (onePassResult recognize W H ssp op).isNone && runAgain then 2
  else 1

/-! ## Specification-side definitions and concrete test data -/

/-- Modelled from the spec's words for the aggregation step (spec 4.5
step 3): the earliest-occurring surviving candidate whose multiplicity
is maximal — used to compare the code's aggregation against the claimed
count/tie-break rule. -/
def specAggregate (results : List (Option String)) : Option String :=
  (surviving results).find? (fun s =>
    (surviving results).all (fun t =>
      decide (List.count t (surviving results) ≤ List.count s (surviving results))))

def codeA : String := "12-345678-90-1"

def codeB : String := "12-345678-90-2"

/-- Spec's end-to-end tile text with confusable `|` glyphs. -/
def confusableText : List Char := "12-345678|90|1".data

def goodText : List Char := "12-345678-90-1".data

def hintFolder : List Char := "12-34".data

def noHintFolder : List Char := "folder".data

/-- A raw candidate of length 13 whose stripped form has 12 characters
(matched by `\d{2}-\w{10}`). -/
def rawLen13Text : List Char := "12-3456789012".data

/-- A text whose first pattern match has stripped length exactly 13 but
raw length 16 (matched by `\d{2}-\d+-\d{2}-\d`). -/
def strip13Text : List Char := "12-34567890-12-3".data

/-- An already 2/6/2/1-grouped code whose stripped form has 13 characters. -/
def grouped13 : List Char := "12-345678-90-123".data

def korrektFile : List Char := "12-345678-90-1_OCR-korrekt.tif".data

def plainFile : List Char := "12-345678-90-1.tif".data

def scanFile : List Char := "scan.tif".data

/-- An engine that recognizes nothing on unenhanced tiles but would
recognize `codeA` on every enhanced tile. -/
def enhOnlyOracle : Bool → Nat → Nat → Option String :=
  fun enh _ _ => if enh then some codeA else none

def constOracle (s : String) : Bool → Nat → Nat → Option String :=
  fun _ _ _ => some s

def noneOracle : Bool → Nat → Nat → Option String := fun _ _ _ => none

/-! ## Properties of the 2/6/2/1 regrouping -/

lemma stripDash_formatGroup (l : List Char) : stripDash (formatGroup l) = stripDash l := by
  have hp : ∀ a ∈ stripDash l, (decide (a ≠ '-')) = true := by
    intro a ha
    simp only [stripDash] at ha
    exact (List.mem_filter.mp ha).2
  have hid : ∀ m : List Char, (∀ a ∈ m, a ∈ stripDash l) →
      m.filter (fun c => decide (c ≠ '-')) = m := by
    intro m hm
    exact List.filter_eq_self.mpr (fun a ha => hp a (hm a ha))
  have h1 := hid ((stripDash l).take 2) (fun a ha => List.take_subset _ _ ha)
  have h2 := hid (((stripDash l).drop 2).take 6)
    (fun a ha => List.drop_subset _ _ (List.take_subset _ _ ha))
  have h3 := hid (((stripDash l).drop 8).take 2)
    (fun a ha => List.drop_subset _ _ (List.take_subset _ _ ha))
  have h4 := hid ((stripDash l).drop 10) (fun a ha => List.drop_subset _ _ ha)
  have hdash : (decide ('-' ≠ '-')) = false := by decide
  show stripDash (formatGroup l) = stripDash l
  unfold formatGroup
  simp only [stripDash] at h1 h2 h3 h4 ⊢
  simp only [List.filter_append, List.filter_cons, hdash, h1, h2, h3, h4]
  have d1 : ((stripDash l).drop 8).drop 2 = (stripDash l).drop 10 := by
    rw [List.drop_drop]
  have d2 : ((stripDash l).drop 2).drop 6 = (stripDash l).drop 8 := by
    rw [List.drop_drop]
  calc (stripDash l).take 2 ++ (((stripDash l).drop 2).take 6 ++
          (((stripDash l).drop 8).take 2 ++ (stripDash l).drop 10))
      = (stripDash l).take 2 ++ (((stripDash l).drop 2).take 6 ++
          (((stripDash l).drop 8).take 2 ++ ((stripDash l).drop 8).drop 2)) := by rw [d1]
    _ = (stripDash l).take 2 ++ (((stripDash l).drop 2).take 6 ++ (stripDash l).drop 8) := by
          rw [List.take_append_drop]
    _ = (stripDash l).take 2 ++ (((stripDash l).drop 2).take 6 ++ ((stripDash l).drop 2).drop 6) := by
          rw [d2]
    _ = (stripDash l).take 2 ++ (stripDash l).drop 2 := by rw [List.take_append_drop]
    _ = stripDash l := List.take_append_drop _ _

lemma formatGroup_eq_of_strip {l l' : List Char} (h : stripDash l = stripDash l') :
    formatGroup l = formatGroup l' := by
  unfold formatGroup
  rw [h]

/-! ## Claim C9 -/

/-- C9: the 2/6/2/1 format normalization is idempotent: for every code
whose separator-stripped form has exactly 13 characters, re-applying the
grouping transformation to the already-grouped result yields the
identical string.  (The 13-character hypothesis of the claim is kept,
although the regrouping is idempotent for every input.) -/
theorem formatGroup_idempotent (l : List Char) (_h : (stripDash l).length = 13) :
    formatGroup (formatGroup l) = formatGroup l :=
  formatGroup_eq_of_strip (stripDash_formatGroup l)

/-- Witness for C9 at the concrete grouped code `12-345678-90-123`. -/
theorem formatGroup_idempotent_witness :
    (stripDash grouped13).length = 13
      ∧ formatGroup (formatGroup grouped13) = formatGroup grouped13 :=
  ⟨by decide, formatGroup_idempotent grouped13 (by decide)⟩

/-! ## Claim C2 -/

/-- C2 counterexample: the folder name `folder` contains no `\d{2}-\d{2}`
hint, yet the candidate is discarded (the claim says it would be kept
unchanged): both the validation step and the whole extractor return
`None` although the text contains a pattern match. -/
theorem folderHint_absent_discards :
    checkFolderName (some goodText) noHintFolder = none
      ∧ searchFolderHint noHintFolder = none
      ∧ ocrPostprocess goodText noHintFolder = none
      ∧ checkFolderName (some goodText) noHintFolder ≠ some goodText := by
  decide

/-- C2 amended: a candidate is kept by `_check_folder_name` exactly when
the folder name contains a `\d{2}-\d{2}` group that occurs as a
substring of the candidate; when the folder name has no such group the
candidate is always discarded (not kept). -/
theorem checkFolderName_spec (t folder : List Char) :
    (checkFolderName (some t) folder = some t ↔
      t ≠ [] ∧ ∃ p, searchFolderHint folder = some p ∧ containsSub t p = true)
    ∧ (searchFolderHint folder = none → checkFolderName (some t) folder = none) := by
  constructor
  · constructor
    · intro h
      unfold checkFolderName at h
      by_cases ht : t.isEmpty
      · simp [ht] at h
      · cases hp : searchFolderHint folder with
        | none => simp [ht, hp] at h
        | some p =>
          by_cases hc : containsSub t p
          · exact ⟨by simpa [List.isEmpty_iff] using ht, p, rfl, hc⟩
          · simp [ht, hp, hc] at h
    · rintro ⟨ht, p, hp, hc⟩
      unfold checkFolderName
      simp [hp, hc, List.isEmpty_iff, ht]
  · intro hp
    unfold checkFolderName
    by_cases ht : t.isEmpty <;> simp [ht, hp]

/-- Witness for C2's amended statement: kept when the hint occurs in the
candidate, discarded when the folder has no hint. -/
theorem checkFolderName_spec_witness :
    checkFolderName (some goodText) hintFolder = some goodText
      ∧ checkFolderName (some goodText) noHintFolder = none :=
  ⟨(checkFolderName_spec goodText hintFolder).1.mpr
      ⟨by decide, hintFolder, by decide, by decide⟩,
    (checkFolderName_spec goodText noHintFolder).2 (by decide)⟩

/-! ## Claim C1 -/

/-- C1 counterexample: no confusable-character substitution is applied
before pattern matching, so the spec's end-to-end tile text
`12-345678|90|1` produces no candidate at all — not the claimed
`12-345678-90-1` — in both `_postprocess` variants. -/
theorem substitution_not_applied :
    ocrPostprocess confusableText hintFolder = none
      ∧ trocrPostprocess [confusableText] = none
      ∧ ocrPostprocess confusableText hintFolder ≠ some goodText := by
  decide

/-- C1 amended: the extractor matches the raw text directly — the
`REPLACEMENTS` table is never applied (and maps confusables to `|`, not
to the `-` used by the patterns, so applying it would not help): the
confusable tile text yields no match and no candidate, its substituted
form still yields no candidate, the dash-separated form yields the
candidate, and empty raw text yields no candidate. -/
theorem raw_text_matched_directly :
    patternMatchText confusableText = []
      ∧ ocrPostprocess confusableText hintFolder = none
      ∧ applyReplacements confusableText = confusableText
      ∧ ocrPostprocess (applyReplacements confusableText) hintFolder = none
      ∧ ocrPostprocess goodText hintFolder = some goodText
      ∧ ocrPostprocess [] hintFolder = none
      ∧ trocrPostprocess [[]] = none := by
  decide

/-! ## Claim C6 -/

/-- C6 counterexample: a candidate whose separator-stripped form has
exactly 13 characters (raw length 16) is neither regrouped nor returned
as-is — the TrOCR `_postprocess` drops it and returns `None`, because
the 13-character test is made on the raw candidate, separators included. -/
theorem strippedLen13_dropped :
    (stripDash strip13Text).length = 13
      ∧ (patternMatchText strip13Text).head? = some strip13Text
      ∧ trocrPostprocess [strip13Text] = none
      ∧ trocrPostprocess [strip13Text] ≠ some (formatGroup strip13Text) := by
  decide

/-- C6 amended: the regrouping gate tests the raw candidate length
(separators included) against 13: such a candidate is stripped and
regrouped 2/6/2/1; a first match of any other raw length is dropped
(processing moves to the next text result, eventually returning `None`),
not returned as matched. -/
theorem trocr_regroup_gate (text : List Char) (rest : List (List Char)) (ft : List Char) :
    ((patternMatchText text).head? = some ft → ft.length = 13 →
        trocrPostprocess (text :: rest) = some (formatGroup ft))
    ∧ ((patternMatchText text).head? = some ft → ft.length ≠ 13 →
        trocrPostprocess (text :: rest) = trocrPostprocess rest)
    ∧ ((patternMatchText text).head? = none →
        trocrPostprocess (text :: rest) = trocrPostprocess rest) := by
  refine ⟨?_, ?_, ?_⟩
  · intro hm h13
    simp [trocrPostprocess, hm, h13]
  · intro hm h13
    simp [trocrPostprocess, hm, h13]
  · intro hm
    simp [trocrPostprocess, hm]

/-- Witness for C6's amended statement: a raw-length-13 candidate is
regrouped (even though its stripped length is 12); a raw-length-16
candidate with stripped length 13 is dropped. -/
theorem trocr_regroup_gate_witness :
    trocrPostprocess [rawLen13Text] = some (formatGroup rawLen13Text)
      ∧ trocrPostprocess [strip13Text] = none := by
  constructor
  · exact (trocr_regroup_gate rawLen13Text [] rawLen13Text).1 (by decide) (by decide)
  · exact ((trocr_regroup_gate strip13Text [] strip13Text).2.1 (by decide) (by decide)).trans rfl

/-! ## Claim C3 -/

lemma onePassResult_none_of_plan {recognize : Bool → Nat → Nat → Option String}
    {W H ssp op : Nat}
    (h : planTiles W H ssp op = Except.error PyErr.valueError
        ∨ planTiles W H ssp op = Except.ok []) :
    onePassResult recognize W H ssp op = none := by
  rcases h with h | h <;> simp [onePassResult, h, findMostCommonResult]

/-- C3 counterexample: with `overlap = sectionSize = 50` the tile loop
construction raises `ValueError`, which the enclosing handler swallows
into a plain `None` — the very value a valid-parameter run that finds
nothing also returns — so no distinct `InvalidParameters` error is ever
produced. -/
theorem tiling_degenerate_no_distinct_error :
    planTiles 100 100 50 50 = Except.error PyErr.valueError
      ∧ planTiles 100 100 50 50 ≠ Except.error PyErr.invalidParameters
      ∧ ocrOnImage noneOracle scanFile 100 100 50 50 true = none
      ∧ ocrOnImage noneOracle scanFile 100 100 80 20 true = none := by
  refine ⟨rfl, ?_, by decide, by decide⟩
  intro h2
  have h1 : planTiles 100 100 50 50 = Except.error PyErr.valueError := rfl
  rw [h1] at h2
  exact PyErr.noConfusion (Except.error.inj h2)

/-- C3 amended: whenever `overlapPercent ≥ sectionSizePercent` (so both
shifts are ≤ 0) the tile construction either raises a `ValueError`
(zero height-shift) or silently yields an empty tile grid (negative
height-shift); no recognition is attempted on any tile and the pipeline
terminates, but the outcome is the generic `None` — there is no distinct
`InvalidParameters` error. -/
theorem tiling_degenerate_swallowed (W H ssp op : Nat) (h : ssp ≤ op) :
    (planTiles W H ssp op = Except.error PyErr.valueError
        ∨ planTiles W H ssp op = Except.ok [])
    ∧ ∀ (recognize : Bool → Nat → Nat → Option String) (fileName : List Char)
        (runAgain : Bool),
        ocrOnImage recognize fileName W H ssp op runAgain = none := by
  have hsec : sectionLen H ssp ≤ sectionLen H op := by
    unfold sectionLen
    exact Nat.div_le_div_right (Nat.mul_le_mul_left H h)
  have hsh : shiftLen H ssp op ≤ 0 := by
    unfold shiftLen
    omega
  have hplan : planTiles W H ssp op = Except.error PyErr.valueError
      ∨ planTiles W H ssp op = Except.ok [] := by
    rcases hsh.lt_or_eq with hlt | heq
    · right
      unfold planTiles
      rw [if_neg (by omega), if_pos hlt]
    · left
      unfold planTiles
      rw [if_pos heq]
  refine ⟨hplan, ?_⟩
  intro recognize fileName runAgain
  have hone : onePassResult recognize W H ssp op = none :=
    onePassResult_none_of_plan hplan
  by_cases hg : guardReturnsEarly fileName
  · simp [ocrOnImage, hg]
  · cases runAgain <;> simp [ocrOnImage, hg, hone]

/-- Witness for C3's amended statement at `100 × 100`, section 50 %,
overlap 50 %. -/
theorem tiling_degenerate_swallowed_witness :
    (planTiles 100 100 50 50 = Except.error PyErr.valueError
        ∨ planTiles 100 100 50 50 = Except.ok [])
    ∧ ∀ (recognize : Bool → Nat → Nat → Option String) (fileName : List Char)
        (runAgain : Bool),
        ocrOnImage recognize fileName 100 100 50 50 runAgain = none :=
  tiling_degenerate_swallowed 100 100 50 50 (by decide)

/-! ## Claim C4 -/

/-- C4: the escalation pass never obtains an enhanced image.  With an
engine that recognizes nothing on unenhanced tiles but would return
`codeA` on every enhanced tile, the pipeline still ends in `None` after
exactly two full passes: the second pass repeats the first verbatim
(`_preprocess_image` is always called with `enhance=False`, and the
recursive call reuses the same image path and dimensions), contradicting
the log message `running again with enhanced image`. -/
theorem escalation_never_enhances :
    ocrOnImage enhOnlyOracle scanFile 100 100 70 30 true = none
      ∧ ocrPassCount enhOnlyOracle scanFile 100 100 70 30 true = 2
      ∧ enhOnlyOracle true 0 0 = some codeA := by
  decide

/-! ## Claim C5 -/

/-- C5 counterexample: the file name `12-345678-90-1_OCR-korrekt.tif`
matches a target pattern, yet the pipeline does not short-circuit — it
runs the full sliding-window pass and its outcome depends on what the
recognition engine returns, so recognition and aggregation are
performed. -/
theorem korrekt_file_fully_processed :
    isFileInDesiredFormat korrektFile = true
      ∧ ocrOnImage (constOracle codeB) korrektFile 100 100 70 30 true = some codeB
      ∧ ocrOnImage noneOracle korrektFile 100 100 70 30 true = none
      ∧ ocrOnImage (constOracle codeB) korrektFile 100 100 70 30 true
          ≠ ocrOnImage noneOracle korrektFile 100 100 70 30 true := by
  decide

/-- C5 amended: the idempotence guard short-circuits — independently of
the recognition engine, with zero sliding-window passes — exactly for
files whose name matches a target pattern and whose stem does not
contain `_OCR-korrekt`; matching files with that marker fall through to
full processing. -/
theorem guard_skips_processing
    (recognize : Bool → Nat → Nat → Option String) (fileName : List Char)
    (W H ssp op : Nat) (runAgain : Bool)
    (hfmt : isFileInDesiredFormat fileName = true)
    (hkor : containsSub (splitextStem fileName) korrektMarker = false) :
    ocrOnImage recognize fileName W H ssp op runAgain = none
      ∧ ocrPassCount recognize fileName W H ssp op runAgain = 0 := by
  have hg : guardReturnsEarly fileName = true := by
    simp [guardReturnsEarly, hfmt, hkor]
  exact ⟨by simp [ocrOnImage, hg], by simp [ocrPassCount, hg]⟩

/-- Witness for C5's amended statement: a matching file without the
marker returns early even under an engine that would recognize a code
everywhere. -/
theorem guard_skips_processing_witness :
    ocrOnImage (constOracle codeB) plainFile 100 100 70 30 true = none
      ∧ ocrPassCount (constOracle codeB) plainFile 100 100 70 30 true = 0 :=
  guard_skips_processing (constOracle codeB) plainFile 100 100 70 30 true
    (by decide) (by decide)

/-! ## Claim C7 -/

lemma lt_ceilDiv_iff {step : Nat} (hs : 0 < step) (i stop : Nat) :
    i < (stop + step - 1) / step ↔ i * step < stop := by
  constructor
  · intro h
    have h2 : (i + 1) * step ≤ stop + step - 1 := (Nat.le_div_iff_mul_le hs).mp h
    have h3 : (i + 1) * step = i * step + step := by ring
    omega
  · intro h
    have h3 : (i + 1) * step = i * step + step := by ring
    have h2 : (i + 1) * step ≤ stop + step - 1 := by omega
    exact (Nat.le_div_iff_mul_le hs).mpr h2

lemma mem_pyRangePos_iff {step x stop : Nat} (hs : 0 < step) :
    x ∈ pyRangePos stop step ↔ ∃ i, x = i * step ∧ i * step < stop := by
  unfold pyRangePos
  constructor
  · intro hx
    obtain ⟨i, hi, hix⟩ := List.mem_map.mp hx
    exact ⟨i, hix.symm, (lt_ceilDiv_iff hs i stop).mp (List.mem_range.mp hi)⟩
  · rintro ⟨i, rfl, hlt⟩
    exact List.mem_map.mpr ⟨i, List.mem_range.mpr ((lt_ceilDiv_iff hs i stop).mpr hlt), rfl⟩

/-- Every pixel coordinate below `dim` lies in a window of width `sec`
anchored at some origin of the positive-step range. -/
lemma pyRangePos_covers {step sec dim p : Nat} (hs : 0 < step) (hsec : step ≤ sec)
    (hp : p < dim) :
    ∃ o ∈ pyRangePos dim step, o ≤ p ∧ p < o + sec := by
  refine ⟨p / step * step, ?_, Nat.div_mul_le_self p step, ?_⟩
  · exact (mem_pyRangePos_iff hs).mpr
      ⟨p / step, rfl, lt_of_le_of_lt (Nat.div_mul_le_self p step) hp⟩
  · have h1 := Nat.div_add_mod p step
    have h2 := Nat.mod_lt p hs
    have h3 : p / step * step = step * (p / step) := Nat.mul_comm _ _
    omega

/-- C7: for every positive image size and every parameter pair with both
computed shifts strictly positive, the generated row-major tile grid
covers every pixel of the image and no tile extends past the image
bounds. -/
theorem tiling_covers_and_bounded (W H ssp op : Nat) (_hW : 0 < W) (hH : 0 < H)
    (hsw : 0 < shiftLen W ssp op) (hsh : 0 < shiftLen H ssp op) :
    ∃ tiles, planTiles W H ssp op = Except.ok tiles
      ∧ (∀ px py, px < W → py < H →
          ∃ t ∈ tiles, t.x ≤ px ∧ px < t.right ∧ t.y ≤ py ∧ py < t.bottom)
      ∧ (∀ t ∈ tiles, t.right ≤ W ∧ t.bottom ≤ H) := by
  have hswn : 0 < (shiftLen W ssp op).toNat := by omega
  have hshn : 0 < (shiftLen H ssp op).toNat := by omega
  have hsecw : (shiftLen W ssp op).toNat ≤ sectionLen W ssp := by
    have h0 := hsw
    unfold shiftLen at h0 ⊢
    omega
  have hsech : (shiftLen H ssp op).toNat ≤ sectionLen H ssp := by
    have h0 := hsh
    unfold shiftLen at h0 ⊢
    omega
  have hys : 0 ∈ pyRangePos H (shiftLen H ssp op).toNat :=
    (mem_pyRangePos_iff hshn).mpr
      ⟨0, (Nat.zero_mul _).symm, by simpa [Nat.zero_mul] using hH⟩
  have hysne : (pyRangePos H (shiftLen H ssp op).toNat).isEmpty = false := by
    rcases hyl : pyRangePos H (shiftLen H ssp op).toNat with _ | ⟨a, l⟩
    · rw [hyl] at hys
      cases hys
    · rfl
  refine ⟨(pyRangePos H (shiftLen H ssp op).toNat).flatMap (fun y =>
      (pyRangePos W (shiftLen W ssp op).toNat).map (fun x =>
        ⟨x, y, min (x + sectionLen W ssp) W, min (y + sectionLen H ssp) H⟩)),
    ?_, ?_, ?_⟩
  · simp only [planTiles]
    rw [if_neg (by omega : ¬ shiftLen H ssp op = 0),
      if_neg (by omega : ¬ shiftLen H ssp op < 0), hysne,
      if_neg Bool.false_ne_true,
      if_neg (by omega : ¬ shiftLen W ssp op = 0),
      if_neg (by omega : ¬ shiftLen W ssp op < 0)]
  · intro px py hpx hpy
    obtain ⟨x, hxmem, hxle, hxlt⟩ := pyRangePos_covers hswn hsecw hpx
    obtain ⟨y, hymem, hyle, hylt⟩ := pyRangePos_covers hshn hsech hpy
    refine ⟨⟨x, y, min (x + sectionLen W ssp) W, min (y + sectionLen H ssp) H⟩,
      ?_, hxle, ?_, hyle, ?_⟩
    · exact List.mem_flatMap.mpr ⟨y, hymem, List.mem_map.mpr ⟨x, hxmem, rfl⟩⟩
    · exact Nat.lt_min.mpr ⟨hxlt, hpx⟩
    · exact Nat.lt_min.mpr ⟨hylt, hpy⟩
  · intro t ht
    obtain ⟨y, hy, ht2⟩ := List.mem_flatMap.mp ht
    obtain ⟨x, hx, rfl⟩ := List.mem_map.mp ht2
    exact ⟨Nat.min_le_right _ _, Nat.min_le_right _ _⟩

/-- Witness for C7 at a 100 × 100 image with section 70 %, overlap 30 %. -/
theorem tiling_covers_and_bounded_witness :
    ∃ tiles, planTiles 100 100 70 30 = Except.ok tiles
      ∧ (∀ px py, px < 100 → py < 100 →
          ∃ t ∈ tiles, t.x ≤ px ∧ px < t.right ∧ t.y ≤ py ∧ py < t.bottom)
      ∧ (∀ t ∈ tiles, t.right ≤ 100 ∧ t.bottom ≤ 100) :=
  tiling_covers_and_bounded 100 100 70 30 (by decide) (by decide) (by decide) (by decide)

/-! ## Claim C8: `Counter.most_common(1)` selects the earliest first
occurrence among the maximal-count candidates -/

lemma firstArgmaxAux_filter (f : String → Nat) (s : String) :
    ∀ (l : List String) (b : String), f s ≤ f b →
      firstArgmaxAux f b (l.filter (fun t => decide (t ≠ s))) = firstArgmaxAux f b l := by
  intro l
  induction l with
  | nil => intro b _; rfl
  | cons x l ih =>
    intro b hb
    by_cases hx : x = s
    · subst hx
      rw [List.filter_cons_of_neg (by simp), ih b hb]
      simp only [firstArgmaxAux]
      rw [if_neg (Nat.not_lt.mpr hb)]
    · rw [List.filter_cons_of_pos (by simp [hx])]
      simp only [firstArgmaxAux]
      by_cases hbx : f b < f x
      · rw [if_pos hbx, if_pos hbx]
        exact ih x (le_trans hb (Nat.le_of_lt hbx))
      · rw [if_neg hbx, if_neg hbx]
        exact ih b hb

lemma firstArgmaxAux_firstKeysAux (f : String → Nat) :
    ∀ (n : Nat) (l : List String) (b : String), l.length ≤ n →
      firstArgmaxAux f b (firstKeysAux n l) = firstArgmaxAux f b l := by
  intro n
  induction n with
  | zero =>
    intro l b hl
    rw [Nat.le_zero, List.length_eq_zero] at hl
    subst hl
    rfl
  | succ n ih =>
    intro l b hl
    cases l with
    | nil => rfl
    | cons s rest =>
      simp only [firstKeysAux, firstArgmaxAux]
      by_cases hbs : f b < f s
      · rw [if_pos hbs, if_pos hbs,
          ih (rest.filter (fun t => decide (t ≠ s))) s
            (le_trans (List.length_filter_le _ _) (Nat.le_of_succ_le_succ hl)),
          firstArgmaxAux_filter f s rest s le_rfl]
      · rw [if_neg hbs, if_neg hbs,
          ih (rest.filter (fun t => decide (t ≠ s))) b
            (le_trans (List.length_filter_le _ _) (Nat.le_of_succ_le_succ hl)),
          firstArgmaxAux_filter f s rest b (Nat.not_lt.mp hbs)]

lemma firstArgmaxAux_mem (f : String → Nat) :
    ∀ (t : List String) (b : String),
      firstArgmaxAux f b t = b ∨ firstArgmaxAux f b t ∈ t := by
  intro t
  induction t with
  | nil => intro b; exact Or.inl rfl
  | cons x t ih =>
    intro b
    simp only [firstArgmaxAux]
    by_cases hbx : f b < f x
    · rw [if_pos hbx]
      rcases ih x with h | h
      · refine Or.inr ?_
        rw [h]
        exact List.mem_cons_self x t
      · exact Or.inr (List.mem_cons_of_mem x h)
    · rw [if_neg hbx]
      rcases ih b with h | h
      · exact Or.inl h
      · exact Or.inr (List.mem_cons_of_mem x h)

lemma firstArgmaxAux_le (f : String → Nat) :
    ∀ (t : List String) (b : String),
      f b ≤ f (firstArgmaxAux f b t) ∧ ∀ s ∈ t, f s ≤ f (firstArgmaxAux f b t) := by
  intro t
  induction t with
  | nil => intro b; exact ⟨le_rfl, by simp⟩
  | cons x t ih =>
    intro b
    simp only [firstArgmaxAux]
    by_cases hbx : f b < f x
    · rw [if_pos hbx]
      refine ⟨le_trans (Nat.le_of_lt hbx) (ih x).1, ?_⟩
      intro s hs
      rcases List.mem_cons.mp hs with rfl | hs
      · exact (ih s).1
      · exact (ih x).2 s hs
    · rw [if_neg hbx]
      refine ⟨(ih b).1, ?_⟩
      intro s hs
      rcases List.mem_cons.mp hs with rfl | hs
      · exact le_trans (Nat.not_lt.mp hbx) (ih b).1
      · exact (ih b).2 s hs

/-- Decomposition: when the fold result differs from the base, the list
splits as `u ++ r :: v` where every element of `u` (and the base) has a
strictly smaller `f`-value — so `r` is the earliest maximal element. -/
lemma firstArgmaxAux_decomp (f : String → Nat) :
    ∀ (t : List String) (b : String), firstArgmaxAux f b t ≠ b →
      ∃ u v, t = u ++ firstArgmaxAux f b t :: v
        ∧ f b < f (firstArgmaxAux f b t)
        ∧ ∀ s ∈ u, f s < f (firstArgmaxAux f b t) := by
  intro t
  induction t with
  | nil => intro b hb; exact absurd rfl hb
  | cons x t ih =>
    intro b hr
    simp only [firstArgmaxAux] at hr ⊢
    by_cases hbx : f b < f x
    · rw [if_pos hbx] at hr ⊢
      by_cases hrx : firstArgmaxAux f x t = x
      · refine ⟨[], t, ?_, ?_, ?_⟩
        · rw [hrx, List.nil_append]
        · rw [hrx]; exact hbx
        · intro s hs; cases hs
      · obtain ⟨u, v, hsplit, hlt, hu⟩ := ih x hrx
        refine ⟨x :: u, v, ?_, ?_, ?_⟩
        · rw [List.cons_append]
          exact congrArg (List.cons x) hsplit
        · exact Nat.lt_trans hbx hlt
        · intro s hs
          rcases List.mem_cons.mp hs with rfl | hs
          · exact hlt
          · exact hu s hs
    · rw [if_neg hbx] at hr ⊢
      obtain ⟨u, v, hsplit, hlt, hu⟩ := ih b hr
      refine ⟨x :: u, v, ?_, ?_, ?_⟩
      · rw [List.cons_append]
        exact congrArg (List.cons x) hsplit
      · exact hlt
      · intro s hs
        rcases List.mem_cons.mp hs with rfl | hs
        · exact Nat.lt_of_le_of_lt (Nat.not_lt.mp hbx) hlt
        · exact hu s hs

lemma find?_append_of_failing (P : String → Bool) :
    ∀ (u : List String) (r : String) (v : List String),
      (∀ s ∈ u, P s = false) → P r = true →
      (u ++ r :: v).find? P = some r := by
  intro u
  induction u with
  | nil =>
    intro r v _ hr
    simpa using List.find?_cons_of_pos _ hr
  | cons x u ih =>
    intro r v hu hr
    have hx : P x = false := hu x (List.mem_cons_self x u)
    rw [List.cons_append, List.find?_cons_of_neg _ (by simp [hx])]
    exact ih r v (fun s hs => hu s (List.mem_cons_of_mem x hs)) hr

lemma mostCommon1_eq_find (fs : List String) :
    mostCommon1 fs = fs.find? (fun s =>
      fs.all (fun t => decide (List.count t fs ≤ List.count s fs))) := by
  cases fs with
  | nil => rfl
  | cons h t =>
    have hkey : firstKeys (h :: t)
        = h :: firstKeysAux t.length (t.filter (fun x => decide (x ≠ h))) := by
      simp [firstKeys, firstKeysAux]
    set f : String → Nat := fun s => List.count s (h :: t) with hf
    have hfold : firstArgmaxAux f h (firstKeysAux t.length (t.filter (fun x => decide (x ≠ h))))
        = firstArgmaxAux f h t := by
      rw [firstArgmaxAux_firstKeysAux f t.length _ h (List.length_filter_le _ _),
        firstArgmaxAux_filter f h t h le_rfl]
    have hlhs : mostCommon1 (h :: t) = some (firstArgmaxAux f h t) := by
      simp only [mostCommon1, hkey, hfold]
    rw [hlhs]
    set P : String → Bool := fun s =>
      (h :: t).all (fun t' => decide (List.count t' (h :: t) ≤ List.count s (h :: t))) with hP0
    set r := firstArgmaxAux f h t with hr
    have hle := firstArgmaxAux_le f t h
    have hmax : ∀ s ∈ h :: t, f s ≤ f r := by
      intro s hs
      rcases List.mem_cons.mp hs with rfl | hs
      · exact hle.1
      · exact hle.2 s hs
    have hPtrue : ∀ s ∈ h :: t, (∀ x ∈ h :: t, f x ≤ f s) → P s = true := by
      intro s _ hsmax
      rw [hP0]
      rw [List.all_eq_true]
      intro x hx
      have hle2 := hsmax x hx
      rw [hf] at hle2
      exact decide_eq_true hle2
    by_cases hrh : r = h
    · have hPh : P h = true := by
        refine hPtrue h (List.mem_cons_self h t) ?_
        intro x hx
        have := hmax x hx
        rw [hrh] at this
        exact this
      rw [hrh]
      exact (List.find?_cons_of_pos t hPh).symm
    · obtain ⟨u, v, hsplit, hlt, hu⟩ := firstArgmaxAux_decomp f t h hrh
      rw [← hr] at hsplit hlt hu
      have hrmem : r ∈ h :: t := by
        rw [hsplit]
        exact List.mem_cons_of_mem h (List.mem_append_right u (List.mem_cons_self r v))
      have hfail : ∀ s ∈ h :: u, P s = false := by
        intro s hs
        have hslt : f s < f r := by
          rcases List.mem_cons.mp hs with rfl | hs
          · exact hlt
          · exact hu s hs
        cases hall : P s with
        | false => rfl
        | true =>
          exfalso
          rw [hP0, List.all_eq_true] at hall
          have hra := hall r hrmem
          rw [decide_eq_true_eq] at hra
          rw [hf] at hslt
          exact absurd (Nat.lt_of_le_of_lt hra hslt) (lt_irrefl _)
      have hPr : P r = true := hPtrue r hrmem hmax
      have hfs : h :: t = (h :: u) ++ r :: v := by
        rw [hsplit, List.cons_append]
      calc some r = List.find? P ((h :: u) ++ r :: v) :=
            (find?_append_of_failing P (h :: u) r v hfail hPr).symm
        _ = List.find? P (h :: t) := congrArg (List.find? P) hfs.symm

/-- C8: the aggregation refines the spec's counting rule — it returns
exactly the earliest-occurring surviving candidate of maximal
multiplicity (`None` when none survives) — and on the spec's concrete
tie-break example `[A, B, A, B]` it selects `A`. -/
theorem aggregation_majority_tiebreak :
    (∀ results : List (Option String), findMostCommonResult results = specAggregate results)
    ∧ findMostCommonResult [some codeA, some codeB, some codeA, some codeB] = some codeA := by
  constructor
  · intro results
    unfold findMostCommonResult specAggregate
    by_cases hres : results.isEmpty
    · have : results = [] := by
        cases results with
        | nil => rfl
        | cons a l => cases hres
      subst this
      rfl
    · rw [if_neg (by simpa using hres)]
      by_cases hlen : (surviving results).length = 1
      · rw [if_pos hlen]
        obtain ⟨c, hc⟩ := List.length_eq_one.mp hlen
        rw [hc]
        exact mostCommon1_eq_find [c]
      · rw [if_neg hlen]
        exact mostCommon1_eq_find (surviving results)
  · decide

/-! ## Claim C10 -/

lemma surviving_append (a b : List (Option String)) :
    surviving (a ++ b) = surviving a ++ surviving b := by
  simp [surviving, List.filter_append, List.filterMap_append]

lemma surviving_of_falsy {l : List (Option String)}
    (h : ∀ x ∈ l, x = none ∨ x = some "") : surviving l = [] := by
  induction l with
  | nil => rfl
  | cons x l ih =>
    have hx := h x (List.mem_cons_self x l)
    have htail : ∀ y ∈ l, y = none ∨ y = some "" :=
      fun y hy => h y (List.mem_cons_of_mem x hy)
    rcases hx with rfl | rfl
    · simpa [surviving, List.filter_cons, pyTruthy] using ih htail
    · simpa [surviving, List.filter_cons, pyTruthy] using ih htail

lemma surviving_cons_of_nonempty {c : String} (hc : c ≠ "") (l : List (Option String)) :
    surviving (some c :: l) = c :: surviving l := by
  simp [surviving, List.filter_cons, pyTruthy, hc]

/-- C10 (implicit): a single surviving candidate is accepted as the
final aggregation result — no corroborating second occurrence is
required — and an all-falsy result sequence aggregates to `None`. -/
theorem single_candidate_accepted :
    (∀ (l₁ l₂ : List (Option String)) (c : String), c ≠ "" →
        (∀ x ∈ l₁, x = none ∨ x = some "") →
        (∀ x ∈ l₂, x = none ∨ x = some "") →
        findMostCommonResult (l₁ ++ some c :: l₂) = some c)
    ∧ (∀ results : List (Option String),
        (∀ x ∈ results, x = none ∨ x = some "") →
        findMostCommonResult results = none) := by
  constructor
  · intro l₁ l₂ c hc h₁ h₂
    have hsur : surviving (l₁ ++ some c :: l₂) = [c] := by
      rw [surviving_append, surviving_of_falsy h₁, surviving_cons_of_nonempty hc,
        surviving_of_falsy h₂]
      rfl
    have hne : (l₁ ++ some c :: l₂).isEmpty = false := by
      cases l₁ with
      | nil => rfl
      | cons a l => rfl
    unfold findMostCommonResult
    rw [hne]
    simp only [Bool.false_eq_true, if_false, hsur]
    rfl
  · intro results hall
    have hsur : surviving results = [] := surviving_of_falsy hall
    unfold findMostCommonResult
    by_cases hres : results.isEmpty = true
    · rw [if_pos hres]
    · rw [if_neg hres]
      simp [hsur, mostCommon1, firstKeys, firstKeysAux]

/-- Witness for C10: one surviving candidate among failed tiles wins;
all-falsy sequences aggregate to `None`. -/
theorem single_candidate_accepted_witness :
    findMostCommonResult ([none] ++ some codeA :: [some ""]) = some codeA
      ∧ findMostCommonResult [none, some "", none] = none :=
  ⟨single_candidate_accepted.1 [none] [some ""] codeA (by decide) (by decide) (by decide),
    single_candidate_accepted.2 [none, some "", none] (by decide)⟩

end WjwDigital
